import Mathlib

/-!
Multi-threaded chat system: shared-memory ring buffer and socket broadcast server

A shallow embedding of `src/shared/common.h`, `src/tests/shm_test_client.cpp` and
`src/server/server.cpp`.

* `std::string` values and fixed `char` arrays are lists of characters (one per byte);
  the NUL byte is `Char.ofNat 0`.
* `int` fields are `Int`; indexing an array outside its bounds is reported as a fault.
* A named semaphore is its counter; `sem_wait` on a zero counter does not return, which
  the embedding reports as the fault `blocked`, with the channel as it is at that point.
* Calls into the environment (`send`, `recv`, the clock) are parameters.
-/

namespace ChatSystem

/-- Byte strings: `std::string` contents and `char` arrays. -/
abbrev Str := List Char

/-! ## `common.h`: constants -/

def MAX_USERNAME_LEN : Nat := 32
def MAX_TIMESTAMP_LEN : Nat := 32
def MAX_MESSAGE_TEXT_LEN : Nat := 512
def SHARED_MEMORY_CAPACITY : Nat := 64

/-- The NUL byte. -/
def NUL : Char := Char.ofNat 0

/-- The array `std::string::c_str()` points to: the contents, then a NUL. -/
def c_str (s : Str) : Str := s ++ [NUL]

/-- `memset(p, 0, n)`: an array of `n` NUL bytes. -/
def zeroed (n : Nat) : Str := List.replicate n NUL

/-- The `n` bytes `strncpy(dest, src, n)` writes: the bytes of `src` up to its first NUL
(at most `n` of them), then NUL padding up to `n` bytes. A source that ends without a NUL
is padded likewise; `c_str` never produces one. -/
def strncpyBytes : Nat → Str → Str
  | 0, _ => []
  | n + 1, [] => List.replicate (n + 1) NUL
  | n + 1, c :: cs => if c = NUL then List.replicate (n + 1) NUL else c :: strncpyBytes n cs

/-- `strncpy(dest, src, n)`: the first `n` bytes of `dest` are rewritten, the rest kept. -/
def strncpy (dest src : Str) (n : Nat) : Str := strncpyBytes n src ++ dest.drop n

/-! ## `common.h`: `ChatMessage` -/

structure ChatMessage where
  username : Str
  timestamp : Str
  text : Str
  valid : Bool
  deriving DecidableEq, Repr

/-- The constructor `ChatMessage()`: `valid(false)` and three `memset`s. -/
def ChatMessage.new : ChatMessage :=
  { username := zeroed MAX_USERNAME_LEN
    timestamp := zeroed MAX_TIMESTAMP_LEN
    text := zeroed MAX_MESSAGE_TEXT_LEN
    valid := false }

/-- The member function `ChatMessage::set`. -/
def ChatMessage.set (m : ChatMessage) (user time msg : Str) : ChatMessage :=
  { username := strncpy m.username (c_str user) (MAX_USERNAME_LEN - 1)
    timestamp := strncpy m.timestamp (c_str time) (MAX_TIMESTAMP_LEN - 1)
    text := strncpy m.text (c_str msg) (MAX_MESSAGE_TEXT_LEN - 1)
    valid := true }

/-! ## `common.h`: `SharedMemoryLayout` -/

structure SharedMemoryLayout where
  write_index : Int
  read_index : Int
  capacity : Int
  active_users : Int
  messages : List ChatMessage
  deriving DecidableEq, Repr

/-- The constructor `SharedMemoryLayout()`; every slot is built by `ChatMessage()`. -/
def SharedMemoryLayout.new : SharedMemoryLayout :=
  { write_index := 0
    read_index := 0
    capacity := (SHARED_MEMORY_CAPACITY : Int)
    active_users := 0
    messages := List.replicate SHARED_MEMORY_CAPACITY ChatMessage.new }

/-! ## `shm_test_client.cpp`: semaphores, attach and publish -/

/-- Ways a call fails to return a result. -/
inductive Fault where
  | blocked
  | outOfBounds
  deriving DecidableEq, Repr

/-- `sem_wait` on a counter: decrement when positive, otherwise the caller stays blocked. -/
def sem_wait (count : Nat) : Except Fault Nat :=
  if count = 0 then .error .blocked else .ok (count - 1)

/-- `sem_post` on a counter. -/
def sem_post (count : Nat) : Nat := count + 1

/-- The mapped layout together with the three named semaphores. -/
structure Channel where
  shm : SharedMemoryLayout
  sem_mutex : Nat
  sem_empty : Nat
  sem_full : Nat
  deriving DecidableEq, Repr

/-- A record handed to the test client: user name, timestamp (`get_timestamp()`, read
from the clock) and message text. -/
structure Record where
  username : Str
  timestamp : Str
  message : Str
  deriving DecidableEq, Repr

/-- The test at lines 56-58 of `shm_test_client.cpp`:
`if (shm_ptr->capacity == 0) new (shm_ptr) SharedMemoryLayout();`. -/
def first_writer_init (shm : SharedMemoryLayout) : SharedMemoryLayout :=
  if shm.capacity = 0 then SharedMemoryLayout.new else shm

/-- How a call of the test client ends: it returned, or it stopped at a fault (suspended
in a `sem_wait`, or an index outside the array); in both cases with the channel as the
call left it at that point. -/
inductive Outcome where
  | returned (ch : Channel)
  | stopped (f : Fault) (ch : Channel)
  deriving DecidableEq, Repr

/-- Lines 55-59: `sem_wait(sem_mutex)`, the initialisation step, `sem_post(sem_mutex)`. -/
def attach (ch : Channel) : Outcome :=
  match sem_wait ch.sem_mutex with
  | .error f => .stopped f ch
  | .ok m => .returned { ch with shm := first_writer_init ch.shm, sem_mutex := sem_post m }

/-- The slot write of lines 64-70 on the layout alone: `messages[write_idx].set(...)` and
`write_index.store((write_idx + 1) % SHARED_MEMORY_CAPACITY)`. -/
def write_slot (r : Record) (shm : SharedMemoryLayout) : Except Fault SharedMemoryLayout :=
  let write_idx := shm.write_index
  if 0 ≤ write_idx ∧ write_idx < (SHARED_MEMORY_CAPACITY : Int) then
    match shm.messages[write_idx.toNat]? with
    | some msg =>
      .ok { shm with
            messages := shm.messages.set write_idx.toNat
              (msg.set r.username r.timestamp r.message)
            write_index := Int.tmod (write_idx + 1) (SHARED_MEMORY_CAPACITY : Int) }
    | none => .error .outOfBounds
  else .error .outOfBounds

/-- Lines 61-73: the publish sequence `sem_wait(sem_empty)`, `sem_wait(sem_mutex)`, the
slot write, `sem_post(sem_mutex)`, `sem_post(sem_full)`. -/
def publish (r : Record) (ch : Channel) : Outcome :=
  match sem_wait ch.sem_empty with
  | .error f => .stopped f ch
  | .ok e =>
    let ch1 := { ch with sem_empty := e }
    match sem_wait ch1.sem_mutex with
    | .error f => .stopped f ch1
    | .ok m =>
      let ch2 := { ch1 with sem_mutex := m }
      match write_slot r ch2.shm with
      | .error f => .stopped f ch2
      | .ok shm =>
        .returned { shm := shm, sem_mutex := sem_post m, sem_empty := e,
                    sem_full := sem_post ch2.sem_full }

/-- The body of `main` of the test client after the mapping and the semaphores are open:
attach, then publish. -/
def client_main (r : Record) (ch : Channel) : Outcome :=
  match attach ch with
  | .returned ch1 => publish r ch1
  | .stopped f ch1 => .stopped f ch1

/-- A sequence of test-client runs, in order, up to the first one that does not return. -/
def run_clients : List Record → Channel → Outcome
  | [], ch => .returned ch
  | r :: rs, ch =>
    match client_main r ch with
    | .returned ch1 => run_clients rs ch1
    | .stopped f ch1 => .stopped f ch1

/-- A freshly initialised channel: the constructed layout and the initial semaphore values
of the `sem_open` calls (1, `SHARED_MEMORY_CAPACITY`, 0). -/
def Channel.fresh : Channel :=
  { shm := SharedMemoryLayout.new
    sem_mutex := 1
    sem_empty := SHARED_MEMORY_CAPACITY
    sem_full := 0 }

/-- Modelled from the spec: `poll` of section 4.1; the consumer of the channel (the
`ShmClient` reader) is not among the sources. Acquire `slotsFilled`, acquire the mutual
exclusion gate, read `slots[readIndex]`, mark it consumed (`valid = false`), advance
`readIndex` modulo capacity, release the gate, release `slotsFree`. -/
def poll (ch : Channel) : Except Fault (ChatMessage × Channel) := do
  let f ← sem_wait ch.sem_full
  let m ← sem_wait ch.sem_mutex
  let read_idx := ch.shm.read_index
  if 0 ≤ read_idx ∧ read_idx < (SHARED_MEMORY_CAPACITY : Int) then
    match ch.shm.messages[read_idx.toNat]? with
    | some msg =>
      let shm := { ch.shm with
                   messages := ch.shm.messages.set read_idx.toNat { msg with valid := false }
                   read_index := Int.tmod (read_idx + 1) ch.shm.capacity }
      pure (msg, { shm := shm, sem_mutex := sem_post m, sem_empty := sem_post ch.sem_empty,
                   sem_full := f })
    | none => .error .outOfBounds
  else .error .outOfBounds

/-- Modelled from the spec: `k` successive polls, collecting the records in the order
they are returned. -/
def poll_many : Nat → Channel → Except Fault (List ChatMessage × Channel)
  | 0, ch => .ok ([], ch)
  | k + 1, ch => do
    let (m, ch1) ← poll ch
    let (ms, ch2) ← poll_many k ch1
    pure (m :: ms, ch2)

/-- The record a publish leaves in a slot that was zeroed before. -/
def stored (r : Record) : ChatMessage :=
  ChatMessage.new.set r.username r.timestamp r.message

/-- The bytes of a `char` array of `size` bytes that holds the C string `s` cut to fit: the
bytes of `s` before its first NUL, at most `size - 1` of them, then NUL bytes up to `size`. -/
def field_bytes (size : Nat) (s : Str) : Str :=
  (s.takeWhile (fun c => c != NUL)).take (size - 1) ++
    List.replicate (size - min (s.takeWhile (fun c => c != NUL)).length (size - 1)) NUL

/-- The record `r` as a slot holds it and a consumer receives it, field by field. -/
def delivered (r : Record) : ChatMessage :=
  { username := field_bytes 32 r.username
    timestamp := field_bytes 32 r.timestamp
    text := field_bytes 512 r.message
    valid := true }

/-- A read record with its slot marked consumed. -/
def consumed (m : ChatMessage) : ChatMessage := { m with valid := false }

/-- The channel in which the records `done` were published and polled and the records
`pending` were published and not yet polled, without the ring having wrapped. -/
def ring_state (done pending : List Record) : Channel :=
  { shm :=
      { write_index := (((done.length + pending.length) % SHARED_MEMORY_CAPACITY : Nat) : Int)
        read_index := ((done.length % SHARED_MEMORY_CAPACITY : Nat) : Int)
        capacity := (SHARED_MEMORY_CAPACITY : Int)
        active_users := 0
        messages := done.map (fun r => consumed (stored r)) ++ (pending.map stored ++
          List.replicate (SHARED_MEMORY_CAPACITY - (done.length + pending.length))
            ChatMessage.new) }
    sem_mutex := 1
    sem_empty := SHARED_MEMORY_CAPACITY - pending.length
    sem_full := pending.length }

/-- The three records of `test_shm_system` in `automated_test.cpp`, with the timestamps the
clock gave each run. -/
def test_records (t1 t2 t3 : Str) : List Record :=
  [ { username := "alice".toList, timestamp := t1, message := "Hello from Alice".toList },
    { username := "bob".toList, timestamp := t2, message := "Hi Alice, this is Bob".toList },
    { username := "charlie".toList, timestamp := t3,
      message := "Charlie joining the chat".toList } ]

/-- A user name of 40 characters. -/
def long_username : Str := "abcdefghijklmnopqrstuvwxyzABCDEFGHIJKLMN".toList

/-- A constructed layout whose slot 0 holds a record with the 40-character username. -/
def used_layout : SharedMemoryLayout :=
  { SharedMemoryLayout.new with
    messages := SharedMemoryLayout.new.messages.set 0
      (ChatMessage.new.set long_username [] "a long message".toList) }

/-- A mapping that is not initialised: `capacity` is 0 and the write index is stale. -/
def stale_layout : SharedMemoryLayout :=
  { SharedMemoryLayout.new with capacity := 0, write_index := 5 }

/-! ## `common.h`: JSON helper -/

/-- The function `create_json_message`; `now` is what `get_timestamp()` returns at the
call, used when `time` is empty. -/
def create_json_message (now user text time : Str) : Str :=
  let timestamp := if time.isEmpty then now else time
  "\x7b\"user\":\"".toList ++ user ++ "\",\"time\":\"".toList ++ timestamp ++
    "\",\"text\":\"".toList ++ text ++ "\"\x7d\n".toList

/-! ## `server.cpp`: registry and broadcast -/

/-- The struct `ClientInfo` without its thread handle. -/
structure ClientInfo where
  socket_fd : Int
  username : Str
  active : Bool
  deriving DecidableEq, Repr

/-- The constructor `ClientInfo(int fd)`. -/
def ClientInfo.new (fd : Int) : ClientInfo :=
  { socket_fd := fd, username := [], active := true }

/-- The global server state, with a log of the calls made on the sockets: `wire` lists
every `send(fd, bytes)` in call order, `closed` every `close(fd)` of a client handle. -/
structure Server where
  clients : List ClientInfo
  server_running : Bool
  wire : List (Int × Str)
  closed : List Int
  deriving DecidableEq, Repr

/-- The loop of `broadcast_message` over the registry: the entries after the loop and
the sends attempted, in order. `net fd bytes` is the value `send` returns. -/
def broadcast_loop (net : Int → Str → Int) (message : Str) (sender_fd : Int) :
    List ClientInfo → List ClientInfo × List (Int × Str)
  | [] => ([], [])
  | client :: rest =>
    let (rest1, sends) := broadcast_loop net message sender_fd rest
    if client.active = true ∧ client.socket_fd ≠ sender_fd then
      let sent := net client.socket_fd message
      let client1 := if sent = -1 then { client with active := false } else client
      (client1 :: rest1, (client.socket_fd, message) :: sends)
    else (client :: rest1, sends)

/-- The function `broadcast_message`. -/
def broadcast_message (net : Int → Str → Int) (message : Str) (sender_fd : Int)
    (s : Server) : Server :=
  let (clients, sends) := broadcast_loop net message sender_fd s.clients
  { s with clients := clients, wire := s.wire ++ sends }

/-- The loop of `send_user_list`: the flag `first` and the stream contents `ss`. -/
def user_list_loop : List ClientInfo → Bool → Str → Bool × Str
  | [], first, ss => (first, ss)
  | client :: rest, first, ss =>
    if client.active = true ∧ ¬ client.username.isEmpty then
      let ss1 := if ¬ first then ss ++ ",".toList else ss
      let ss2 := ss1 ++ "\"".toList ++ client.username ++ "\"".toList
      user_list_loop rest false ss2
    else user_list_loop rest first ss

/-- The string `msg` built by `send_user_list`. -/
def user_list_line (clients : List ClientInfo) : Str :=
  (user_list_loop clients true "\x7b\"type\":\"userlist\",\"users\":[".toList).2 ++
    "]\x7d\n".toList

/-- The function `send_user_list`; the result of its `send` is ignored. -/
def send_user_list (client_fd : Int) (s : Server) : Server :=
  { s with wire := s.wire ++ [(client_fd, user_list_line s.clients)] }

/-! ## `server.cpp`: the connection worker -/

/-- The loop of `read_line`: `input` is the bytes `recv` delivers one at a time; when it
is exhausted `recv` returns `n <= 0`. Returns the line and the unread input. -/
def read_line_loop (line : Str) : Str → Str × Str
  | [] => ([], [])
  | c :: rest => if c = '\n' then (line, rest) else read_line_loop (line ++ [c]) rest

/-- The function `read_line`. -/
def read_line (input : Str) : Str × Str := read_line_loop [] input

/-- The constant `std::string::npos` of a 64-bit `size_t`. -/
def npos : Nat := 2 ^ 64 - 1

/-- Search of `pat` in the suffix `s` that starts at offset `i` of the whole string. -/
def find_loop (pat : Str) : Str → Nat → Nat
  | [], i => if pat.isEmpty then i else npos
  | c :: cs, i => if pat.isPrefixOf (c :: cs) then i else find_loop pat cs (i + 1)

/-- The member `std::string::find(pat, pos)`. -/
def find (s pat : Str) (pos : Nat) : Nat :=
  if pos > s.length then npos else find_loop pat (s.drop pos) pos

/-- The member `std::string::substr(pos, count)`; `none` stands for the exception
`std::out_of_range`. -/
def substr (s : Str) (pos count : Nat) : Option Str :=
  if pos > s.length then none else some ((s.drop pos).take count)

/-- Lines 115-123 of `handle_client`: the username parse; `size_t` arithmetic is modulo
`2 ^ 64`. -/
def parse_username (username_line : Str) : Option Str :=
  let user_pos := find username_line "\"user\":\"".toList 0
  if user_pos ≠ npos then
    let start := (user_pos + 8) % 2 ^ 64
    let end_pos := find username_line "\"".toList start
    substr username_line start ((end_pos + 2 ^ 64 - start) % 2 ^ 64)
  else some "Anonymous".toList

/-- The welcome line of `handle_client`. -/
def welcome : Str :=
  "\x7b\"type\":\"welcome\",\"text\":\"Please send your username\"\x7d\n".toList

/-- Lines 115-132 of `handle_client` for the worker whose `ClientInfo` is the registry
entry at position `self`: parse the username, store it, broadcast the join notification
and send the user list. `none` when there is no such entry or `substr` throws. -/
def register_client (net : Int → Str → Int) (now : Str) (self : Nat) (username_line : Str)
    (s : Server) : Option Server := do
  let client ← s.clients[self]?
  let username ← parse_username username_line
  let s1 := { s with clients := s.clients.set self { client with username := username } }
  let join_msg := create_json_message now "SERVER".toList
    (username ++ " joined the chat".toList) []
  let s2 := broadcast_message net join_msg (-1) s1
  pure (send_user_list client.socket_fd s2)

/-- Lines 134-149 of `handle_client`: the message loop, at most `fuel` iterations. -/
def message_loop (net : Int → Str → Int) (self : Nat) : Nat → Str → Server → Server
  | 0, _, s => s
  | fuel + 1, input, s =>
    match s.clients[self]? with
    | none => s
    | some client =>
      if s.server_running = true ∧ client.active = true then
        let (message, rest) := read_line input
        if message.isEmpty then
          { s with clients := s.clients.set self { client with active := false } }
        else
          message_loop net self fuel rest
            (broadcast_message net (message ++ "\n".toList) client.socket_fd s)
      else s

/-- The function `handle_client` for the worker whose `ClientInfo` is the registry entry
at position `self` (the accept loop pushes the entry right after it starts the worker).
`input` is everything the peer sends before its stream ends; `now_join` and `now_leave`
are the clock readings of the two notifications. Every iteration of the message loop
consumes input, so `input.length + 1` iterations always suffice. -/
def handle_client (net : Int → Str → Int) (now_join now_leave : Str) (self : Nat)
    (input : Str) (s : Server) : Option Server := do
  let client ← s.clients[self]?
  let s0 := { s with wire := s.wire ++ [(client.socket_fd, welcome)] }
  let (username_line, rest) := read_line input
  if username_line.isEmpty then
    pure { s0 with closed := s0.closed ++ [client.socket_fd] }
  else
    let s1 ← register_client net now_join self username_line s0
    let s2 := message_loop net self (rest.length + 1) rest s1
    let client2 ← s2.clients[self]?
    let leave_msg := create_json_message now_leave "SERVER".toList
      (client2.username ++ " left the chat".toList) []
    let s3 := broadcast_message net leave_msg (-1) s2
    pure { s3 with closed := s3.closed ++ [client.socket_fd] }

/-! ## Theorems -/

theorem strncpyBytes_c_str (n : Nat) (s : Str) (h : NUL ∉ s) :
    strncpyBytes n (c_str s) = s.take n ++ List.replicate (n - s.length) NUL := by
  induction n generalizing s with
  | zero => simp [strncpyBytes]
  | succ n ih =>
    cases s with
    | nil => simp [strncpyBytes, c_str]
    | cons c cs =>
      have hc : c ≠ NUL := fun e => h (by simp [e])
      have hcs : NUL ∉ cs := fun e => h (by simp [e])
      have := ih cs hcs
      simp only [c_str] at this
      simp [strncpyBytes, c_str, hc, this]

theorem strncpy_zeroed (k : Nat) (s : Str) (h : NUL ∉ s) :
    strncpy (zeroed (k + 1)) (c_str s) k
      = s.take k ++ List.replicate (k + 1 - min s.length k) NUL := by
  unfold strncpy zeroed
  rw [strncpyBytes_c_str k s h]
  have e : k + 1 - min s.length k = (k - s.length) + (k + 1 - k) := by omega
  rw [List.drop_replicate, List.append_assoc, e, List.replicate_add]

theorem set_append_cons {α : Type} (A B : List α) (x y : α) :
    (A ++ x :: B).set A.length y = A ++ y :: B := by
  induction A with
  | nil => rfl
  | cons a A ih => simp [ih]

theorem getElem?_append_cons {α : Type} (A B : List α) (x : α) :
    (A ++ x :: B)[A.length]? = some x := by
  induction A with
  | nil => simp
  | cons a A ih => simpa using ih

theorem Channel.fresh_eq : Channel.fresh = ring_state [] [] := by
  simp [Channel.fresh, ring_state, SharedMemoryLayout.new, SHARED_MEMORY_CAPACITY]

theorem write_slot_ring_state (done pending : List Record) (r : Record)
    (h : done.length + pending.length < SHARED_MEMORY_CAPACITY) :
    write_slot r (ring_state done pending).shm = .ok (ring_state done (pending ++ [r])).shm := by
  have hlen : (done.map (fun r => consumed (stored r)) ++ pending.map stored).length
      = done.length + pending.length := by simp
  have hrep : List.replicate (SHARED_MEMORY_CAPACITY - (done.length + pending.length))
      ChatMessage.new = ChatMessage.new ::
        List.replicate (SHARED_MEMORY_CAPACITY - (done.length + (pending.length + 1)))
          ChatMessage.new := by
    have : SHARED_MEMORY_CAPACITY - (done.length + pending.length)
        = (SHARED_MEMORY_CAPACITY - (done.length + (pending.length + 1))) + 1 := by omega
    rw [this, List.replicate_succ]
  have hmsgs : (ring_state done pending).shm.messages
      = (done.map (fun r => consumed (stored r)) ++ pending.map stored) ++ ChatMessage.new ::
        List.replicate (SHARED_MEMORY_CAPACITY - (done.length + (pending.length + 1)))
          ChatMessage.new := by
    simp only [ring_state, List.append_assoc]
    rw [hrep]
  have hidx : (ring_state done pending).shm.write_index
      = ((done.length + pending.length : Nat) : Int) := by
    simp only [ring_state]
    rw [Nat.mod_eq_of_lt h]
  unfold write_slot
  simp only [hidx, hmsgs, Int.toNat_ofNat]
  rw [← hlen, getElem?_append_cons]
  simp only [set_append_cons]
  have hb : (0 : Int) ≤ ((done.map (fun r => consumed (stored r))
      ++ pending.map stored).length : Int) ∧
      (((done.map (fun r => consumed (stored r)) ++ pending.map stored).length : Nat) : Int)
        < (SHARED_MEMORY_CAPACITY : Int) := by
    rw [hlen]; constructor <;> omega
  rw [if_pos hb]
  simp only [ring_state, stored, hlen, List.length_append, List.length_singleton,
    List.map_append, List.map_cons, List.map_nil, List.append_assoc, List.singleton_append]
  congr 2
  rw [Int.tmod_eq_emod (by omega) (by simp [SHARED_MEMORY_CAPACITY])]
  simp only [SHARED_MEMORY_CAPACITY, List.length_map] at h ⊢
  push_cast
  omega

theorem attach_ring_state (done pending : List Record) :
    attach (ring_state done pending) = .returned (ring_state done pending) := by
  simp [attach, sem_wait, sem_post, first_writer_init, ring_state, SHARED_MEMORY_CAPACITY]

theorem publish_eq (r : Record) (ch : Channel) (he : ch.sem_empty ≠ 0)
    (hm : ch.sem_mutex ≠ 0) :
    publish r ch = match write_slot r ch.shm with
      | .ok shm => .returned { shm := shm, sem_mutex := ch.sem_mutex - 1 + 1,
                               sem_empty := ch.sem_empty - 1, sem_full := ch.sem_full + 1 }
      | .error f => .stopped f { ch with sem_empty := ch.sem_empty - 1,
                                         sem_mutex := ch.sem_mutex - 1 } := by
  simp only [publish, sem_wait, sem_post, if_neg he, if_neg hm]
  cases write_slot r ch.shm <;> rfl

theorem publish_ring_state (done pending : List Record) (r : Record)
    (h : done.length + pending.length < SHARED_MEMORY_CAPACITY) :
    publish r (ring_state done pending) = .returned (ring_state done (pending ++ [r])) := by
  rw [publish_eq r _ (by simp only [ring_state]; omega) (by simp [ring_state]),
    write_slot_ring_state done pending r h]
  simp only [ring_state, List.length_append, List.length_singleton]
  rw [Nat.sub_sub]

theorem client_main_ring_state (done pending : List Record) (r : Record)
    (h : done.length + pending.length < SHARED_MEMORY_CAPACITY) :
    client_main r (ring_state done pending)
      = .returned (ring_state done (pending ++ [r])) := by
  simp only [client_main, attach_ring_state, publish_ring_state done pending r h]

theorem run_clients_ring_state (done pending rs : List Record)
    (h : done.length + pending.length + rs.length ≤ SHARED_MEMORY_CAPACITY) :
    run_clients rs (ring_state done pending) = .returned (ring_state done (pending ++ rs)) := by
  induction rs generalizing pending with
  | nil => simp [run_clients]
  | cons r rs ih =>
    simp only [List.length_cons] at h
    simp only [run_clients]
    rw [client_main_ring_state done pending r (by omega)]
    simp only []
    rw [ih (pending ++ [r]) (by simp only [List.length_append, List.length_singleton]; omega)]
    simp

theorem poll_ring_state (done pending : List Record) (r : Record)
    (h : done.length + pending.length < SHARED_MEMORY_CAPACITY) :
    poll (ring_state done (r :: pending))
      = .ok (stored r, ring_state (done ++ [r]) pending) := by
  have hlen : (done.map (fun r => consumed (stored r))).length = done.length := by simp
  have hidx : (ring_state done (r :: pending)).shm.read_index = ((done.length : Nat) : Int) := by
    simp only [ring_state]
    rw [Nat.mod_eq_of_lt (by omega)]
  have hmsgs : (ring_state done (r :: pending)).shm.messages
      = done.map (fun r => consumed (stored r)) ++ stored r :: (pending.map stored ++
        List.replicate (SHARED_MEMORY_CAPACITY - (done.length + (pending.length + 1)))
          ChatMessage.new) := by
    simp [ring_state]
  have hb : (0 : Int) ≤ ((done.map (fun r => consumed (stored r))).length : Int) ∧
      (((done.map (fun r => consumed (stored r))).length : Nat) : Int)
        < (SHARED_MEMORY_CAPACITY : Int) := by
    rw [hlen]; constructor <;> omega
  have hf : (ring_state done (r :: pending)).sem_full = pending.length + 1 := rfl
  have hm : (ring_state done (r :: pending)).sem_mutex = 1 := rfl
  have he : (ring_state done (r :: pending)).sem_empty
      = SHARED_MEMORY_CAPACITY - (pending.length + 1) := rfl
  have hc : (ring_state done (r :: pending)).shm.capacity = (SHARED_MEMORY_CAPACITY : Int) := rfl
  simp only [poll, bind, Except.bind, pure, Except.pure, sem_wait, sem_post, hf, hm, he, hc,
    hidx, hmsgs, Int.toNat_ofNat, Nat.succ_ne_zero, if_false, Nat.one_ne_zero]
  rw [← hlen, getElem?_append_cons, if_pos hb]
  simp only [set_append_cons]
  rw [Int.tmod_eq_emod (by omega) (by simp [SHARED_MEMORY_CAPACITY])]
  simp only [ring_state, SHARED_MEMORY_CAPACITY, List.length_map, List.length_append,
    List.length_singleton, List.length_cons, List.map_append, List.map_cons, List.map_nil,
    List.append_assoc, List.singleton_append, List.length_nil, consumed] at h ⊢
  clear hidx hmsgs hb hf hm he hc hlen
  have e1 : done.length + (0 + 1) + pending.length = done.length + (pending.length + 1) := by
    omega
  have e2 : 64 - (pending.length + 1) + 1 = 64 - pending.length := by omega
  have e3 : ((done.length : Int) + 1) % ((64 : Nat) : Int)
      = (((done.length + (0 + 1)) % 64 : Nat) : Int) := by push_cast; omega
  rw [e1, e2, e3]
  rfl

theorem poll_many_ring_state (done pending rest : List Record)
    (h : done.length + pending.length + rest.length ≤ SHARED_MEMORY_CAPACITY) :
    poll_many pending.length (ring_state done (pending ++ rest))
      = .ok (pending.map stored, ring_state (done ++ pending) rest) := by
  induction pending generalizing done with
  | nil => simp [poll_many]
  | cons r pending ih =>
    simp only [List.length_cons] at h
    simp only [List.length_cons, poll_many, List.cons_append, bind, Except.bind]
    rw [poll_ring_state done (pending ++ rest) r
      (by simp only [List.length_append]; omega)]
    simp only []
    rw [ih (done ++ [r]) (by simp only [List.length_append, List.length_singleton]; omega)]
    simp [pure, Except.pure]

theorem ring_state_getElem?_pending (pending : List Record) (i : Nat) (hi : i < pending.length) :
    (ring_state [] pending).shm.messages[i]? = (pending[i]?).map stored := by
  simp only [ring_state, List.map_nil, List.nil_append]
  rw [List.getElem?_append_left (by simpa using hi)]
  simp

theorem ring_state_valid_iff (pending : List Record) (i : Nat) (m : ChatMessage)
    (hm : (ring_state [] pending).shm.messages[i]? = some m) :
    m.valid = true ↔ i < pending.length := by
  simp only [ring_state, List.map_nil, List.nil_append, List.length_nil, Nat.zero_add] at hm
  by_cases hi : i < pending.length
  · rw [List.getElem?_append_left (by simpa using hi)] at hm
    simp only [List.getElem?_map, Option.map_eq_some'] at hm
    obtain ⟨r, -, rfl⟩ := hm
    simp [stored, ChatMessage.set, hi]
  · rw [List.getElem?_append_right (by simpa using hi)] at hm
    have hmem := List.getElem?_mem hm
    rw [List.eq_of_mem_replicate hmem]
    simp [ChatMessage.new, hi]

theorem strncpyBytes_c_str_takeWhile (n : Nat) (s : Str) :
    strncpyBytes n (c_str s) = (s.takeWhile (fun c => c != NUL)).take n ++
      List.replicate (n - (s.takeWhile (fun c => c != NUL)).length) NUL := by
  induction n generalizing s with
  | zero => simp [strncpyBytes]
  | succ n ih =>
    cases s with
    | nil => simp [strncpyBytes, c_str]
    | cons c cs =>
      have := ih cs
      simp only [c_str] at this
      by_cases hc : c = NUL
      · simp [strncpyBytes, c_str, hc]
      · simp [strncpyBytes, c_str, hc, this]

theorem strncpy_zeroed_field_bytes (k : Nat) (s : Str) :
    strncpy (zeroed (k + 1)) (c_str s) k = field_bytes (k + 1) s := by
  unfold strncpy zeroed field_bytes
  rw [strncpyBytes_c_str_takeWhile k s]
  have e : k + 1 - min (s.takeWhile (fun c => c != NUL)).length (k + 1 - 1)
      = (k - (s.takeWhile (fun c => c != NUL)).length) + (k + 1 - k) := by omega
  rw [List.drop_replicate, List.append_assoc, e, List.replicate_add, Nat.add_sub_cancel]

theorem stored_eq_delivered (r : Record) : stored r = delivered r := by
  simp only [stored, delivered, ChatMessage.set, ChatMessage.new, MAX_USERNAME_LEN,
    MAX_TIMESTAMP_LEN, MAX_MESSAGE_TEXT_LEN]
  rw [show (32 : Nat) - 1 = 31 from rfl, show (512 : Nat) - 1 = 511 from rfl,
    strncpy_zeroed_field_bytes 31, strncpy_zeroed_field_bytes 31,
    strncpy_zeroed_field_bytes 511]

/-- C1. FIFO delivery: the runs of the test client publishing `k <= 64` records into a
freshly initialised channel all return; slot `i` then holds, for every `i < k`, the bytes
of record `i` (each field: the bytes of the published string before its first NUL, at most
31, 31 and 511 of them, NUL-padded to 32, 32 and 512 bytes) with `valid` set; and `k`
polls on the resulting channel return exactly these records in the order in which they
were published. -/
theorem fifo_delivery (rs : List Record) (h : rs.length ≤ SHARED_MEMORY_CAPACITY) :
    ∃ ch, run_clients rs Channel.fresh = .returned ch ∧
      (∀ i, i < rs.length → ch.shm.messages[i]? = (rs[i]?).map (fun r =>
        { username := field_bytes 32 r.username
          timestamp := field_bytes 32 r.timestamp
          text := field_bytes 512 r.message
          valid := true })) ∧
      ∃ ch1, poll_many rs.length ch = .ok (rs.map (fun r =>
        { username := field_bytes 32 r.username
          timestamp := field_bytes 32 r.timestamp
          text := field_bytes 512 r.message
          valid := true }), ch1) := by
  have hfun : (fun r : Record =>
      ({ username := field_bytes 32 r.username
         timestamp := field_bytes 32 r.timestamp
         text := field_bytes 512 r.message
         valid := true } : ChatMessage)) = stored := by
    funext r
    exact (stored_eq_delivered r).symm
  rw [hfun]
  refine ⟨ring_state [] rs, ?_, ?_, ring_state rs [], ?_⟩
  · rw [Channel.fresh_eq]
    simpa using run_clients_ring_state [] [] rs (by simpa using h)
  · intro i hi
    exact ring_state_getElem?_pending rs i hi
  · simpa using poll_many_ring_state [] rs [] (by simpa using h)

/-- Witness of C1: the test publishes alice, bob, charlie, in that order. -/
theorem fifo_delivery_witness :
    (test_records [] [] []).length ≤ SHARED_MEMORY_CAPACITY ∧
    ∃ ch, run_clients (test_records [] [] []) Channel.fresh = .returned ch ∧
      (∀ i, i < (test_records [] [] []).length →
        ch.shm.messages[i]? = ((test_records [] [] [])[i]?).map (fun r =>
          { username := field_bytes 32 r.username
            timestamp := field_bytes 32 r.timestamp
            text := field_bytes 512 r.message
            valid := true })) ∧
      ∃ ch1, poll_many (test_records [] [] []).length ch
        = .ok ((test_records [] [] []).map (fun r =>
          { username := field_bytes 32 r.username
            timestamp := field_bytes 32 r.timestamp
            text := field_bytes 512 r.message
            valid := true }), ch1) :=
  ⟨by decide, fifo_delivery (test_records [] [] []) (by decide)⟩

/-- The user names the three polls of the test return, as the bytes of the slots: alice,
bob, charlie, each padded with NUL bytes to 32 bytes. -/
theorem fifo_delivery_usernames :
    (match run_clients (test_records [] [] []) Channel.fresh with
      | .returned ch =>
        (match poll_many 3 ch with
          | .ok (ms, _) => ms.map (fun m => (m.username, m.valid))
          | .error _ => [])
      | .stopped _ _ => [])
    = [("alice".toList ++ List.replicate 27 NUL, true),
       ("bob".toList ++ List.replicate 29 NUL, true),
       ("charlie".toList ++ List.replicate 25 NUL, true)] := by
  decide

theorem publish_blocked (r : Record) (ch : Channel) (h : ch.sem_empty = 0) :
    publish r ch = .stopped .blocked ch := by
  simp [publish, sem_wait, h]

theorem publish_returned (r : Record) (ch ch1 : Channel) (h : publish r ch = .returned ch1) :
    write_slot r ch.shm = .ok ch1.shm ∧ ch1.sem_mutex = ch.sem_mutex ∧
      0 < ch.sem_mutex ∧ 0 < ch.sem_empty ∧ ch1.sem_empty + 1 = ch.sem_empty := by
  by_cases he : ch.sem_empty = 0
  · rw [publish_blocked r ch he] at h
    cases h
  · by_cases hm : ch.sem_mutex = 0
    · simp [publish, sem_wait, he, hm] at h
    · rw [publish_eq r ch he hm] at h
      split at h
      · rename_i shm hw
        cases h
        refine ⟨hw, ?_, ?_, ?_, ?_⟩ <;> (try dsimp only) <;> omega
      · cases h

theorem publish_stopped (r : Record) (ch ch1 : Channel) (f : Fault)
    (h : publish r ch = .stopped f ch1) : ch1.shm = ch.shm := by
  by_cases he : ch.sem_empty = 0
  · rw [publish_blocked r ch he] at h
    cases h
    rfl
  · by_cases hm : ch.sem_mutex = 0
    · simp only [publish, sem_wait, he, hm, if_false, if_true] at h
      cases h
      rfl
    · rw [publish_eq r ch he hm] at h
      split at h
      · cases h
      · cases h
        rfl

theorem ring_state_append_messages (pending : List Record) (r : Record)
    (h : pending.length < SHARED_MEMORY_CAPACITY) :
    (ring_state [] (pending ++ [r])).shm.messages
      = (ring_state [] pending).shm.messages.set pending.length (stored r) := by
  have e : SHARED_MEMORY_CAPACITY - pending.length
      = (SHARED_MEMORY_CAPACITY - (pending.length + 1)) + 1 := by omega
  have hl : (pending.map stored).length = pending.length := by simp
  simp only [ring_state, List.map_nil, List.nil_append, List.length_nil, Nat.zero_add,
    List.length_append, List.length_singleton, List.map_append, List.map_cons,
    List.append_assoc, List.singleton_append]
  rw [e, List.replicate_succ]
  conv_rhs => rw [← hl, set_append_cons]
  rw [hl]

/-- C2. No overwrite on a full buffer, with the semaphores as counters. For every channel a
publish that returns found `sem_empty` and the mutex positive and returns with `sem_empty`
decremented, and a publish that does not return leaves the layout as it was; on a channel
with `sem_empty = 0` it is suspended in `sem_wait(sem_empty)` with the whole channel
unchanged. After the test client has published `k <= 64` records into a freshly
initialised channel the mutex counter is 1, `sem_empty` is `64 - k`, `sem_full` is `k`, and
exactly the first `k` slots are valid; a further publish either returns, in which case
`k < 64`, the slot it wrote was not valid and every other slot is unchanged, or it is
suspended with `k = 64`, `sem_empty = 0` and the channel, all 64 valid slots included,
exactly as before. -/
theorem no_overwrite_when_full (rs : List Record) (h : rs.length ≤ SHARED_MEMORY_CAPACITY)
    (r : Record) :
    (∀ ch0 : Channel,
      match publish r ch0 with
      | .returned ch1 =>
        0 < ch0.sem_empty ∧ ch1.sem_empty + 1 = ch0.sem_empty ∧ 0 < ch0.sem_mutex
      | .stopped f ch1 =>
        ch1.shm = ch0.shm ∧ (ch0.sem_empty = 0 → f = Fault.blocked ∧ ch1 = ch0)) ∧
    ∃ ch, run_clients rs Channel.fresh = .returned ch ∧
      ch.sem_mutex = 1 ∧ ch.sem_empty = SHARED_MEMORY_CAPACITY - rs.length ∧
      ch.sem_full = rs.length ∧
      (∀ i m, ch.shm.messages[i]? = some m → (m.valid = true ↔ i < rs.length)) ∧
      match publish r ch with
      | .returned ch1 =>
        rs.length < SHARED_MEMORY_CAPACITY ∧ 0 < ch.sem_empty ∧
        ch1.sem_empty + 1 = ch.sem_empty ∧
        (∃ m, ch.shm.messages[ch.shm.write_index.toNat]? = some m ∧ m.valid = false) ∧
        (∀ i, i ≠ ch.shm.write_index.toNat → ch1.shm.messages[i]? = ch.shm.messages[i]?)
      | .stopped f ch1 =>
        f = Fault.blocked ∧ rs.length = SHARED_MEMORY_CAPACITY ∧ ch.sem_empty = 0 ∧
        ch1 = ch := by
  refine ⟨?_, ring_state [] rs, ?_, rfl, rfl, rfl, ring_state_valid_iff rs, ?_⟩
  · intro ch0
    split
    · rename_i ch1 hp
      obtain ⟨-, -, hm, he, hd⟩ := publish_returned r ch0 ch1 hp
      exact ⟨he, hd, hm⟩
    · rename_i f ch1 hp
      refine ⟨publish_stopped r ch0 ch1 f hp, ?_⟩
      intro he
      rw [publish_blocked r ch0 he] at hp
      cases hp
      exact ⟨rfl, rfl⟩
  · rw [Channel.fresh_eq]
    simpa using run_clients_ring_state [] [] rs (by simpa using h)
  · rcases Nat.lt_or_ge rs.length SHARED_MEMORY_CAPACITY with hlt | hge
    · rw [publish_ring_state [] rs r (by simpa using hlt)]
      have hidx : (ring_state [] rs).shm.write_index.toNat = rs.length := by
        simp only [ring_state, List.length_nil, Nat.zero_add, Nat.mod_eq_of_lt hlt,
          Int.toNat_ofNat]
      have hslot : (ring_state [] rs).shm.messages[rs.length]? = some ChatMessage.new := by
        have e : SHARED_MEMORY_CAPACITY - rs.length
            = (SHARED_MEMORY_CAPACITY - (rs.length + 1)) + 1 := by omega
        have hl : (rs.map stored).length = rs.length := by simp
        simp only [ring_state, List.map_nil, List.nil_append, List.length_nil, Nat.zero_add]
        rw [e, List.replicate_succ]
        conv_lhs => rw [← hl, getElem?_append_cons]
      refine ⟨hlt, ?_, ?_, ⟨ChatMessage.new, ?_, rfl⟩, ?_⟩
      · show 0 < SHARED_MEMORY_CAPACITY - rs.length
        omega
      · show SHARED_MEMORY_CAPACITY - (rs ++ [r]).length + 1
          = SHARED_MEMORY_CAPACITY - rs.length
        simp only [List.length_append, List.length_singleton]
        omega
      · rw [hidx]; exact hslot
      · intro i hi
        rw [hidx] at hi
        rw [ring_state_append_messages rs r hlt, List.getElem?_set_ne (Ne.symm hi)]
    · have he : (ring_state [] rs).sem_empty = 0 := by
        show SHARED_MEMORY_CAPACITY - rs.length = 0
        omega
      rw [publish_blocked r _ he]
      exact ⟨rfl, by omega, he, rfl⟩

/-- Witness of C2: a channel that already holds 64 records. -/
theorem no_overwrite_when_full_witness :
    (List.replicate 64 (Record.mk [] [] [])).length ≤ SHARED_MEMORY_CAPACITY ∧
    ((∀ ch0 : Channel,
      match publish (Record.mk long_username [] []) ch0 with
      | .returned ch1 =>
        0 < ch0.sem_empty ∧ ch1.sem_empty + 1 = ch0.sem_empty ∧ 0 < ch0.sem_mutex
      | .stopped f ch1 =>
        ch1.shm = ch0.shm ∧ (ch0.sem_empty = 0 → f = Fault.blocked ∧ ch1 = ch0)) ∧
    ∃ ch, run_clients (List.replicate 64 (Record.mk [] [] [])) Channel.fresh
        = .returned ch ∧
      ch.sem_mutex = 1 ∧
      ch.sem_empty = SHARED_MEMORY_CAPACITY - (List.replicate 64 (Record.mk [] [] [])).length ∧
      ch.sem_full = (List.replicate 64 (Record.mk [] [] [])).length ∧
      (∀ i m, ch.shm.messages[i]? = some m →
        (m.valid = true ↔ i < (List.replicate 64 (Record.mk [] [] [])).length)) ∧
      match publish (Record.mk long_username [] []) ch with
      | .returned ch1 =>
        (List.replicate 64 (Record.mk [] [] [])).length < SHARED_MEMORY_CAPACITY ∧
        0 < ch.sem_empty ∧ ch1.sem_empty + 1 = ch.sem_empty ∧
        (∃ m, ch.shm.messages[ch.shm.write_index.toNat]? = some m ∧ m.valid = false) ∧
        (∀ i, i ≠ ch.shm.write_index.toNat → ch1.shm.messages[i]? = ch.shm.messages[i]?)
      | .stopped f ch1 =>
        f = Fault.blocked ∧
        (List.replicate 64 (Record.mk [] [] [])).length = SHARED_MEMORY_CAPACITY ∧
        ch.sem_empty = 0 ∧ ch1 = ch) :=
  ⟨by decide, no_overwrite_when_full (List.replicate 64 (Record.mk [] [] [])) (by decide)
    (Record.mk long_username [] [])⟩

/-- C3. Deterministic field truncation: `ChatMessage::set` on a freshly constructed record,
given strings without NUL bytes, stores in each field the first 31, 31 and 511 bytes of the
argument followed by NUL bytes up to the array size 32, 32 and 512, and sets `valid`. -/
theorem set_truncates (user time msg : Str) (hu : NUL ∉ user) (ht : NUL ∉ time)
    (hm : NUL ∉ msg) :
    ChatMessage.new.set user time msg =
      { username := user.take 31 ++ List.replicate (32 - min user.length 31) NUL
        timestamp := time.take 31 ++ List.replicate (32 - min time.length 31) NUL
        text := msg.take 511 ++ List.replicate (512 - min msg.length 511) NUL
        valid := true } ∧
    (ChatMessage.new.set user time msg).username.length = MAX_USERNAME_LEN ∧
    (ChatMessage.new.set user time msg).timestamp.length = MAX_TIMESTAMP_LEN ∧
    (ChatMessage.new.set user time msg).text.length = MAX_MESSAGE_TEXT_LEN := by
  have e : ChatMessage.new.set user time msg =
      { username := user.take 31 ++ List.replicate (32 - min user.length 31) NUL
        timestamp := time.take 31 ++ List.replicate (32 - min time.length 31) NUL
        text := msg.take 511 ++ List.replicate (512 - min msg.length 511) NUL
        valid := true } := by
    simp only [ChatMessage.set, ChatMessage.new, MAX_USERNAME_LEN, MAX_TIMESTAMP_LEN,
      MAX_MESSAGE_TEXT_LEN]
    rw [show (32 : Nat) - 1 = 31 from rfl, show (512 : Nat) - 1 = 511 from rfl,
      strncpy_zeroed 31 user hu, strncpy_zeroed 31 time ht, strncpy_zeroed 511 msg hm]
  refine ⟨e, ?_, ?_, ?_⟩
  · rw [e]
    simp only [List.length_append, List.length_take, List.length_replicate, MAX_USERNAME_LEN]
    omega
  · rw [e]
    simp only [List.length_append, List.length_take, List.length_replicate, MAX_TIMESTAMP_LEN]
    omega
  · rw [e]
    simp only [List.length_append, List.length_take, List.length_replicate,
      MAX_MESSAGE_TEXT_LEN]
    omega

/-- Witness of C3: a username of 40 characters. -/
theorem set_truncates_witness :
    (NUL ∉ long_username ∧ NUL ∉ "2026-01-01T00:00:00".toList ∧ NUL ∉ "hello".toList) ∧
    (ChatMessage.new.set long_username "2026-01-01T00:00:00".toList "hello".toList =
      { username := long_username.take 31 ++
          List.replicate (32 - min long_username.length 31) NUL
        timestamp := "2026-01-01T00:00:00".toList.take 31 ++
          List.replicate (32 - min "2026-01-01T00:00:00".toList.length 31) NUL
        text := "hello".toList.take 511 ++
          List.replicate (512 - min "hello".toList.length 511) NUL
        valid := true } ∧
    (ChatMessage.new.set long_username "2026-01-01T00:00:00".toList
      "hello".toList).username.length = MAX_USERNAME_LEN ∧
    (ChatMessage.new.set long_username "2026-01-01T00:00:00".toList
      "hello".toList).timestamp.length = MAX_TIMESTAMP_LEN ∧
    (ChatMessage.new.set long_username "2026-01-01T00:00:00".toList
      "hello".toList).text.length = MAX_MESSAGE_TEXT_LEN) :=
  ⟨⟨by decide, by decide, by decide⟩,
    set_truncates long_username "2026-01-01T00:00:00".toList "hello".toList
      (by decide) (by decide) (by decide)⟩

/-- The stored form of the 40-character username: its first 31 characters and one NUL. -/
theorem set_long_username :
    (ChatMessage.new.set long_username [] []).username
      = "abcdefghijklmnopqrstuvwxyzABCDE".toList ++ [NUL] ∧
    (ChatMessage.new.set long_username [] []).valid = true := by
  decide

theorem write_slot_capacity (r : Record) (shm shm1 : SharedMemoryLayout)
    (h : write_slot r shm = .ok shm1) : shm1.capacity = shm.capacity := by
  simp only [write_slot] at h
  split at h
  · split at h
    · cases h; rfl
    · cases h
  · cases h

theorem first_writer_init_capacity (shm : SharedMemoryLayout) :
    (first_writer_init shm).capacity ≠ 0 := by
  unfold first_writer_init
  split
  · simp [SharedMemoryLayout.new, SHARED_MEMORY_CAPACITY]
  · assumption

theorem attach_eq (ch : Channel) (hm : 0 < ch.sem_mutex) :
    attach ch = .returned { ch with shm := first_writer_init ch.shm } := by
  have hne : ch.sem_mutex ≠ 0 := by omega
  have e : ch.sem_mutex - 1 + 1 = ch.sem_mutex := by omega
  simp only [attach, sem_wait, sem_post, if_neg hne, e]

theorem attach_blocked (ch : Channel) (hm : ch.sem_mutex = 0) :
    attach ch = .stopped .blocked ch := by
  simp [attach, sem_wait, hm]

theorem client_main_returned (r : Record) (ch ch1 : Channel)
    (h : client_main r ch = .returned ch1) :
    ch1.shm.capacity ≠ 0 ∧ ch1.sem_mutex = ch.sem_mutex := by
  by_cases hm : ch.sem_mutex = 0
  · simp [client_main, attach_blocked ch hm] at h
  · simp only [client_main, attach_eq ch (by omega)] at h
    obtain ⟨hw, hmu, -, -, -⟩ := publish_returned r _ ch1 h
    refine ⟨?_, hmu⟩
    rw [write_slot_capacity r _ _ hw]
    exact first_writer_init_capacity ch.shm

theorem run_clients_returned (rs : List Record) (ch0 ch : Channel)
    (h0 : ch0.shm.capacity ≠ 0) (h : run_clients rs ch0 = .returned ch) :
    ch.shm.capacity ≠ 0 ∧ ch.sem_mutex = ch0.sem_mutex := by
  induction rs generalizing ch0 with
  | nil =>
    simp only [run_clients, Outcome.returned.injEq] at h
    rw [← h]; exact ⟨h0, rfl⟩
  | cons r rs ih =>
    simp only [run_clients] at h
    split at h
    · rename_i ch1 h1
      obtain ⟨hc1, hm1⟩ := client_main_returned r ch0 ch1 h1
      obtain ⟨hc, hm⟩ := ih ch1 hc1 h
      exact ⟨hc, hm.trans hm1⟩
    · cases h

/-- C4. One-time initialisation: `attach` on a channel whose mutex is free returns the same
channel with the layout reset to the empty state (both indices 0, capacity 64, no active
users, 64 zeroed slots that are not valid) when its `capacity` is 0, and with every field
of the layout unchanged otherwise; with the mutex taken it is suspended and changes
nothing; a second attach returns what the first returned; and on the channel reached from
any initialised channel by any number of test-client runs attach returns that channel
unchanged, write index and records included. -/
theorem first_writer_init_once (ch : Channel) (rs : List Record) (ch0 chk : Channel)
    (hm : 0 < ch.sem_mutex) (h0 : ch0.shm.capacity ≠ 0) (hm0 : 0 < ch0.sem_mutex)
    (hrun : run_clients rs ch0 = .returned chk) :
    attach ch = .returned { ch with shm :=
      (if ch.shm.capacity = 0 then
        { write_index := 0, read_index := 0, capacity := 64, active_users := 0,
          messages := List.replicate 64
            { username := List.replicate 32 NUL, timestamp := List.replicate 32 NUL,
              text := List.replicate 512 NUL, valid := false } }
      else ch.shm) } ∧
    (∀ c : Channel, c.sem_mutex = 0 → attach c = .stopped .blocked c) ∧
    (∃ ch1, attach ch = .returned ch1 ∧ attach ch1 = .returned ch1) ∧
    attach chk = .returned chk := by
  refine ⟨attach_eq ch hm, attach_blocked, ⟨_, attach_eq ch hm, ?_⟩, ?_⟩
  · rw [attach_eq _ (by exact hm)]
    simp only []
    have hc := first_writer_init_capacity ch.shm
    conv_lhs => rw [first_writer_init, if_neg hc]
  · obtain ⟨hc, hmk⟩ := run_clients_returned rs ch0 chk h0 hrun
    rw [attach_eq chk (by omega), first_writer_init, if_neg hc]

/-- Witness of C4: a mapping with `capacity == 0` and a stale write index, and the three
runs of the test. -/
theorem first_writer_init_once_witness :
    (0 < (Channel.mk stale_layout 1 64 0).sem_mutex ∧ Channel.fresh.shm.capacity ≠ 0 ∧
      0 < Channel.fresh.sem_mutex ∧
      run_clients (test_records [] [] []) Channel.fresh
        = .returned (ring_state [] (test_records [] [] []))) ∧
    (attach (Channel.mk stale_layout 1 64 0) =
      .returned { Channel.mk stale_layout 1 64 0 with shm :=
        (if (Channel.mk stale_layout 1 64 0).shm.capacity = 0 then
          { write_index := 0, read_index := 0, capacity := 64, active_users := 0,
            messages := List.replicate 64
              { username := List.replicate 32 NUL, timestamp := List.replicate 32 NUL,
                text := List.replicate 512 NUL, valid := false } }
        else (Channel.mk stale_layout 1 64 0).shm) } ∧
    (∀ c : Channel, c.sem_mutex = 0 → attach c = .stopped .blocked c) ∧
    (∃ ch1, attach (Channel.mk stale_layout 1 64 0) = .returned ch1 ∧
      attach ch1 = .returned ch1) ∧
    attach (ring_state [] (test_records [] [] []))
      = .returned (ring_state [] (test_records [] [] []))) :=
  ⟨⟨by decide, by decide, by decide, rfl⟩,
    first_writer_init_once (Channel.mk stale_layout 1 64 0) (test_records [] [] [])
      Channel.fresh (ring_state [] (test_records [] [] []))
      (by decide) (by decide) (by decide) rfl⟩

theorem broadcast_loop_eq (net : Int → Str → Int) (message : Str) (sender_fd : Int)
    (cs : List ClientInfo) :
    broadcast_loop net message sender_fd cs =
      (cs.map (fun c =>
          if c.active = true ∧ c.socket_fd ≠ sender_fd ∧ net c.socket_fd message = -1
          then { c with active := false } else c),
       (cs.filter (fun c => c.active && decide (c.socket_fd ≠ sender_fd))).map
          (fun c => (c.socket_fd, message))) := by
  induction cs with
  | nil => rfl
  | cons c cs ih =>
    simp only [broadcast_loop, ih, List.map_cons, List.filter_cons]
    by_cases ha : c.active = true
    · by_cases hf : c.socket_fd = sender_fd
      · simp [ha, hf]
      · by_cases hs : net c.socket_fd message = -1
        · simp [ha, hf, hs]
        · simp [ha, hf, hs]
    · simp [ha]

/-- C5. Broadcast recipients and partial-failure isolation: `broadcast_message` attempts
one send of the message, in registry order, to exactly the entries that are active and
whose handle differs from the sender's, whatever the earlier sends returned; an entry
becomes inactive exactly when it was a recipient and its send returned -1, every other
entry is unchanged, no handle or username changes, and the call returns the updated
server state without touching the running flag or the closed handles. -/
theorem broadcast_message_recipients (net : Int → Str → Int) (message : Str)
    (sender_fd : Int) (s : Server) :
    (broadcast_message net message sender_fd s).wire =
      s.wire ++ (s.clients.filter
        (fun c => c.active && decide (c.socket_fd ≠ sender_fd))).map
          (fun c => (c.socket_fd, message)) ∧
    (broadcast_message net message sender_fd s).clients =
      s.clients.map (fun c =>
        if c.active = true ∧ c.socket_fd ≠ sender_fd ∧ net c.socket_fd message = -1
        then { c with active := false } else c) ∧
    (broadcast_message net message sender_fd s).clients.map (fun c => c.socket_fd)
      = s.clients.map (fun c => c.socket_fd) ∧
    (broadcast_message net message sender_fd s).clients.map (fun c => c.username)
      = s.clients.map (fun c => c.username) ∧
    (broadcast_message net message sender_fd s).server_running = s.server_running ∧
    (broadcast_message net message sender_fd s).closed = s.closed := by
  simp only [broadcast_message, broadcast_loop_eq, List.map_map]
  refine ⟨trivial, trivial, ?_, ?_, trivial, trivial⟩
  · apply List.map_congr_left
    intro c _
    simp only [Function.comp]
    split <;> rfl
  · apply List.map_congr_left
    intro c _
    simp only [Function.comp]
    split <;> rfl

/-- An instance of C5: three active connections, the send to the second one fails; the
third one is still sent the line and only the second one is marked inactive. -/
theorem broadcast_isolation_example :
    broadcast_message (fun fd _ => if fd = 5 then -1 else 6) "hello\n".toList 4
      { clients := [⟨4, "alice".toList, true⟩, ⟨5, "bob".toList, true⟩,
          ⟨6, "carol".toList, true⟩],
        server_running := true, wire := [], closed := [] }
    = { clients := [⟨4, "alice".toList, true⟩, ⟨5, "bob".toList, false⟩,
          ⟨6, "carol".toList, true⟩],
        server_running := true,
        wire := [(5, "hello\n".toList), (6, "hello\n".toList)], closed := [] } := by
  decide

theorem intercalate_cons (sep x : Str) (xs : List Str) :
    List.intercalate sep (x :: xs) = x ++ (xs.map (fun q => sep ++ q)).flatten := by
  induction xs generalizing x with
  | nil => simp [List.intercalate]
  | cons y ys ih =>
    have := ih y
    simp only [List.intercalate] at this ⊢
    simp only [List.intersperse_cons₂, List.flatten_cons, List.map_cons, this,
      List.append_assoc]

theorem user_list_loop_false (cs : List ClientInfo) (ss : Str) :
    (user_list_loop cs false ss).2 = ss ++
      (((cs.filter (fun c => c.active && !c.username.isEmpty)).map
        (fun c => "\"".toList ++ c.username ++ "\"".toList)).map
          (fun q => ",".toList ++ q)).flatten := by
  induction cs generalizing ss with
  | nil => simp [user_list_loop]
  | cons c cs ih =>
    by_cases hc : c.active = true ∧ ¬ c.username.isEmpty = true
    · have hf : (c.active && !c.username.isEmpty) = true := by
        simp only [Bool.and_eq_true, Bool.not_eq_true', hc.1, true_and]
        simpa using hc.2
      simp only [user_list_loop, if_pos hc, List.filter_cons, hf, if_true, List.map_cons,
        List.flatten_cons, ih]
      simp
    · have hf : (c.active && !c.username.isEmpty) = false := by
        cases ha : c.active <;> cases hu : c.username.isEmpty <;> simp_all
      simp only [user_list_loop, if_neg hc, List.filter_cons, hf, ih]
      simp

theorem user_list_loop_true (cs : List ClientInfo) (ss : Str) :
    (user_list_loop cs true ss).2 = ss ++
      List.intercalate ",".toList
        ((cs.filter (fun c => c.active && !c.username.isEmpty)).map
          (fun c => "\"".toList ++ c.username ++ "\"".toList)) := by
  induction cs generalizing ss with
  | nil => simp [user_list_loop, List.intercalate]
  | cons c cs ih =>
    by_cases hc : c.active = true ∧ ¬ c.username.isEmpty = true
    · have hf : (c.active && !c.username.isEmpty) = true := by
        simp only [Bool.and_eq_true, Bool.not_eq_true', hc.1, true_and]
        simpa using hc.2
      simp only [user_list_loop, if_pos hc, List.filter_cons, hf, if_true, List.map_cons,
        intercalate_cons, user_list_loop_false]
      simp
    · have hf : (c.active && !c.username.isEmpty) = false := by
        cases ha : c.active <;> cases hu : c.username.isEmpty <;> simp_all
      simp only [user_list_loop, if_neg hc, List.filter_cons, hf, ih]
      simp

/-- C6. User-list content and order: the line `send_user_list` sends is the header
`{"type":"userlist","users":[`, then the double-quoted usernames of exactly the entries
that are active and have a non-empty username, in registry order and separated by single
commas, then `]}` and a newline; it is sent once, to the given handle, and the registry,
the running flag and the closed handles are unchanged. -/
theorem send_user_list_line (client_fd : Int) (s : Server) :
    send_user_list client_fd s =
      { s with wire := s.wire ++ [(client_fd,
          "\x7b\"type\":\"userlist\",\"users\":[".toList ++
          List.intercalate ",".toList
            ((s.clients.filter (fun c => c.active && !c.username.isEmpty)).map
              (fun c => "\"".toList ++ c.username ++ "\"".toList)) ++
          "]\x7d\n".toList)] } := by
  simp only [send_user_list, user_list_line, user_list_loop_true, List.append_assoc]

/-- An instance of C6: alice is the only registered active entry. -/
theorem send_user_list_alice :
    send_user_list 4
      { clients := [⟨4, "alice".toList, true⟩, ⟨5, [], true⟩, ⟨6, "bob".toList, false⟩],
        server_running := true, wire := [], closed := [] }
    = { clients := [⟨4, "alice".toList, true⟩, ⟨5, [], true⟩, ⟨6, "bob".toList, false⟩],
        server_running := true,
        wire := [(4, "\x7b\"type\":\"userlist\",\"users\":[\"alice\"]\x7d\n".toList)],
        closed := [] } := by
  decide

theorem find_loop_hit (pat : Str) (c : Char) (cs : Str) (i : Nat)
    (h : pat.isPrefixOf (c :: cs) = true) : find_loop pat (c :: cs) i = i := by
  simp [find_loop, h]

theorem find_loop_skip (pat pre rest : Str) (i : Nat)
    (h : ∀ j, j < pre.length → pat.isPrefixOf (pre.drop j ++ rest) = false) :
    find_loop pat (pre ++ rest) i = find_loop pat rest (i + pre.length) := by
  induction pre generalizing i with
  | nil => rfl
  | cons c pre ih =>
    have h0 := h 0 (by simp)
    simp only [List.drop_zero, List.cons_append] at h0
    rw [List.cons_append, find_loop, if_neg (by simp [h0])]
    rw [ih (i + 1) (fun j hj => by simpa using h (j + 1) (by simpa using hj))]
    simp only [List.length_cons]
    congr 1
    omega

theorem find_loop_miss (pat s : Str) (i : Nat) (hp : pat ≠ [])
    (h : ∀ j, j < s.length → pat.isPrefixOf (s.drop j) = false) :
    find_loop pat s i = npos := by
  induction s generalizing i with
  | nil => cases pat with
    | nil => exact absurd rfl hp
    | cons p ps => rfl
  | cons c cs ih =>
    have h0 := h 0 (by simp)
    simp only [List.drop_zero] at h0
    rw [find_loop, if_neg (by simp [h0])]
    exact ih (i + 1) (fun j hj => by simpa using h (j + 1) (by simpa using hj))

theorem quote_not_in_drop (name rest : Str) (hq : '"' ∉ name) (j : Nat)
    (hj : j < name.length) :
    List.isPrefixOf "\"".toList (name.drop j ++ rest) = false := by
  have hd : name.drop j = name[j] :: name.drop (j + 1) := List.drop_eq_getElem_cons hj
  have hne : name[j] ≠ '"' := fun e => hq (e ▸ List.getElem_mem hj)
  rw [hd]
  show List.isPrefixOf ['"'] (name[j] :: (name.drop (j + 1) ++ rest)) = false
  simp only [List.isPrefixOf, Bool.and_eq_false_imp, beq_iff_eq]
  intro e
  exact absurd e.symm hne

theorem parse_username_between (pre name rest : Str)
    (hlen : (pre ++ "\"user\":\"".toList ++ name ++ '"' :: rest).length < npos)
    (hq : '"' ∉ name)
    (hfirst : ∀ j, j < pre.length → List.isPrefixOf "\"user\":\"".toList
      (pre.drop j ++ ("\"user\":\"".toList ++ name ++ '"' :: rest)) = false) :
    parse_username (pre ++ "\"user\":\"".toList ++ name ++ '"' :: rest) = some name := by
  have hline : pre ++ "\"user\":\"".toList ++ name ++ '"' :: rest
      = pre ++ ("\"user\":\"".toList ++ name ++ '"' :: rest) := by
    simp only [List.append_assoc]
  have hm : ("\"user\":\"".toList : Str).length = 8 := rfl
  have hl : (pre ++ "\"user\":\"".toList ++ name ++ '"' :: rest).length
      = pre.length + 8 + name.length + (rest.length + 1) := by
    simp only [List.length_append, List.length_cons, hm]
  rw [hl] at hlen
  have hnp : npos = 2 ^ 64 - 1 := rfl
  have hpos : find (pre ++ "\"user\":\"".toList ++ name ++ '"' :: rest)
      "\"user\":\"".toList 0 = pre.length := by
    unfold find
    rw [if_neg (by omega), List.drop_zero, hline, find_loop_skip _ pre _ 0 hfirst, Nat.zero_add]
    exact find_loop_hit _ '"' _ _ (by simp [List.isPrefixOf])
  have hdrop : (pre ++ "\"user\":\"".toList ++ name ++ '"' :: rest).drop (pre.length + 8)
      = name ++ '"' :: rest := by
    have : pre.length + 8 = (pre ++ "\"user\":\"".toList).length := by
      simp only [List.length_append, hm]
    rw [this, List.append_assoc (pre ++ "\"user\":\"".toList), List.drop_left]
  have hend : find (pre ++ "\"user\":\"".toList ++ name ++ '"' :: rest) "\"".toList
      (pre.length + 8) = pre.length + 8 + name.length := by
    unfold find
    rw [if_neg (by rw [hl]; omega), hdrop,
      find_loop_skip _ name _ _ (quote_not_in_drop name ('"' :: rest) hq)]
    exact find_loop_hit _ '"' _ _ (by simp [List.isPrefixOf])
  unfold parse_username
  simp only [hpos]
  rw [if_pos (by rw [hnp]; omega)]
  have hstart : (pre.length + 8) % 2 ^ 64 = pre.length + 8 :=
    Nat.mod_eq_of_lt (by rw [hnp] at hlen; omega)
  simp only [hstart, hend]
  have hcount : (pre.length + 8 + name.length + 2 ^ 64 - (pre.length + 8)) % 2 ^ 64
      = name.length := by
    rw [hnp] at hlen
    omega
  rw [hcount]
  unfold substr
  rw [if_neg (by rw [hl]; omega), hdrop, List.take_left]

theorem read_line_loop_line (acc line more : Str) (hn : '\n' ∉ line) :
    read_line_loop acc (line ++ '\n' :: more) = (acc ++ line, more) := by
  induction line generalizing acc with
  | nil => simp [read_line_loop]
  | cons c cs ih =>
    have hc : c ≠ '\n' := fun e => hn (by simp [e])
    have hcs : '\n' ∉ cs := fun e => hn (by simp [e])
    rw [List.cons_append, read_line_loop, if_neg hc, ih (acc ++ [c]) hcs]
    simp

theorem read_line_line (line more : Str) (hn : '\n' ∉ line) :
    read_line (line ++ '\n' :: more) = (line, more) := by
  unfold read_line
  rw [read_line_loop_line [] line more hn, List.nil_append]

theorem parse_username_absent (line : Str)
    (h : ∀ j, j < line.length → List.isPrefixOf "\"user\":\"".toList (line.drop j) = false) :
    parse_username line = some "Anonymous".toList := by
  have hf : find line "\"user\":\"".toList 0 = npos := by
    unfold find
    rw [if_neg (by omega), List.drop_zero]
    exact find_loop_miss _ line 0 (by decide) h
  unfold parse_username
  simp only [hf, ne_eq, not_true_eq_false, if_false]

/-- C7. Registration round trip: a registration line `{"user":"<name>"}` whose name has no
double quote and no newline is read back by `read_line` as it was sent and `handle_client`
extracts exactly `<name>` from it; more generally, from any line in which the marker
`"user":"` first occurs after `pre` and is followed by `field`, a double quote and `rest`,
with no double quote inside `field`, the extracted username is `field`. String sizes are
those a 64-bit `size_t` can hold. -/
theorem registration_round_trip (name more pre field rest : Str)
    (hq : '"' ∉ name) (hn : '\n' ∉ name)
    (hlen : ("\x7b\"user\":\"".toList ++ name ++ "\"\x7d".toList).length < npos)
    (hq2 : '"' ∉ field)
    (hlen2 : (pre ++ "\"user\":\"".toList ++ field ++ '"' :: rest).length < npos)
    (hfirst : ∀ j, j < pre.length → List.isPrefixOf "\"user\":\"".toList
      (pre.drop j ++ ("\"user\":\"".toList ++ field ++ '"' :: rest)) = false) :
    (read_line ("\x7b\"user\":\"".toList ++ name ++ "\"\x7d".toList ++ '\n' :: more)
        = ("\x7b\"user\":\"".toList ++ name ++ "\"\x7d".toList, more) ∧
      parse_username ("\x7b\"user\":\"".toList ++ name ++ "\"\x7d".toList) = some name) ∧
    parse_username (pre ++ "\"user\":\"".toList ++ field ++ '"' :: rest) = some field := by
  refine ⟨⟨?_, ?_⟩, parse_username_between pre field rest hlen2 hq2 hfirst⟩
  · apply read_line_line
    intro hmem
    simp only [List.mem_append] at hmem
    rcases hmem with (h1 | h2) | h3
    · revert h1; decide
    · exact hn h2
    · revert h3; decide
  · have e : "\x7b\"user\":\"".toList ++ name ++ "\"\x7d".toList
        = ['\x7b'] ++ "\"user\":\"".toList ++ name ++ '"' :: ['\x7d'] := by
      simp
    rw [e] at hlen ⊢
    apply parse_username_between ['\x7b'] name ['\x7d'] hlen hq
    intro j hj
    have hj0 : j = 0 := by simpa using hj
    subst hj0
    rfl

/-- Witness of C7: `{"user":"alice"}` registers the username alice, and a line with an
earlier field yields the text between the marker and the next double quote. -/
theorem registration_round_trip_witness :
    ('"' ∉ "alice".toList ∧ '\n' ∉ "alice".toList ∧
      ("\x7b\"user\":\"".toList ++ "alice".toList ++ "\"\x7d".toList).length < npos ∧
      '"' ∉ "bob".toList ∧
      ("\x7b\"id\":\"7\",".toList ++ "\"user\":\"".toList ++ "bob".toList ++
        '"' :: ",\"x\":\"y\"\x7d".toList).length < npos ∧
      ∀ j, j < ("\x7b\"id\":\"7\",".toList).length → List.isPrefixOf "\"user\":\"".toList
        (("\x7b\"id\":\"7\",".toList).drop j ++ ("\"user\":\"".toList ++ "bob".toList ++
          '"' :: ",\"x\":\"y\"\x7d".toList)) = false) ∧
    ((read_line ("\x7b\"user\":\"".toList ++ "alice".toList ++ "\"\x7d".toList ++
          '\n' :: "hi\n".toList)
        = ("\x7b\"user\":\"".toList ++ "alice".toList ++ "\"\x7d".toList, "hi\n".toList) ∧
      parse_username ("\x7b\"user\":\"".toList ++ "alice".toList ++ "\"\x7d".toList)
        = some "alice".toList) ∧
    parse_username ("\x7b\"id\":\"7\",".toList ++ "\"user\":\"".toList ++ "bob".toList ++
        '"' :: ",\"x\":\"y\"\x7d".toList) = some "bob".toList) :=
  ⟨⟨by decide, by decide, by decide, by decide, by decide, by decide⟩,
    registration_round_trip "alice".toList "hi\n".toList "\x7b\"id\":\"7\",".toList
      "bob".toList ",\"x\":\"y\"\x7d".toList
      (by decide) (by decide) (by decide) (by decide) (by decide) (by decide)⟩

/-- C8. A registration line with the marker `"user":"` and no closing double quote is
not given the placeholder: the second `find` returns `npos`, `end - start` wraps around,
and `substr` returns the rest of the line, `alice` here; with nothing after the marker the
username is empty. -/
theorem parse_username_unterminated :
    parse_username "\x7b\"user\":\"alice".toList = some "alice".toList ∧
    parse_username "\x7b\"user\":\"alice".toList ≠ some "Anonymous".toList ∧
    parse_username "\x7b\"user\":\"".toList = some [] := by
  decide

theorem broadcast_message_wire (net : Int → Str → Int) (message : Str) (sender_fd : Int)
    (s : Server) :
    (broadcast_message net message sender_fd s).wire =
      s.wire ++ (s.clients.filter
        (fun c => c.active && decide (c.socket_fd ≠ sender_fd))).map
          (fun c => (c.socket_fd, message)) := by
  simp only [broadcast_message, broadcast_loop_eq]

/-- C9, refuted as stated: with the new connection (handle 4) as the only registry entry,
registration sends the join notification to handle 4 itself, before the user list. -/
theorem join_sent_to_self :
    (register_client (fun _ _ => 1) "2026-01-01T00:00:00".toList 0
        "\x7b\"user\":\"alice\"\x7d".toList
        { clients := [ClientInfo.new 4], server_running := true, wire := [],
          closed := [] }).map (fun s => s.wire)
      = some [(4, ("\x7b\"user\":\"SERVER\",\"time\":\"2026-01-01T00:00:00\"," ++
                  "\"text\":\"alice joined the chat\"\x7d\n").toList),
              (4, "\x7b\"type\":\"userlist\",\"users\":[\"alice\"]\x7d\n".toList)] := by
  decide

/-- C9, amended: when the worker of the registry entry at position `self` registers a
username, the join notification is sent once, in registry order, to every entry whose
`active` flag is set (the sender argument is -1, which no accepted handle equals), its
own entry included when that is active, and also entries that have no username yet; after
that the user list is sent to its own handle alone. -/
theorem join_notification_recipients (net : Int → Str → Int) (now : Str) (self : Nat)
    (line : Str) (s : Server) (client : ClientInfo) (username : Str)
    (hc : s.clients[self]? = some client) (hu : parse_username line = some username) :
    ∃ s1, register_client net now self line s = some s1 ∧
      s1.wire = s.wire ++
        ((s.clients.set self { client with username := username }).filter
          (fun c => c.active && decide (c.socket_fd ≠ -1))).map
            (fun c => (c.socket_fd, create_json_message now "SERVER".toList
              (username ++ " joined the chat".toList) [])) ++
        [(client.socket_fd, user_list_line s1.clients)] ∧
      (client.active = true ∧ client.socket_fd ≠ -1 →
        (client.socket_fd, create_json_message now "SERVER".toList
          (username ++ " joined the chat".toList) []) ∈ s1.wire) := by
  refine ⟨send_user_list client.socket_fd
    (broadcast_message net (create_json_message now "SERVER".toList
      (username ++ " joined the chat".toList) []) (-1)
      { s with clients := s.clients.set self { client with username := username } }),
    ?_, ?_, ?_⟩
  · simp only [register_client, hc, hu, bind, Option.bind, pure]
  · simp only [send_user_list, broadcast_message_wire]
  · rintro ⟨ha, hfd⟩
    simp only [send_user_list, broadcast_message_wire, List.mem_append, List.mem_map,
      List.mem_filter]
    left; right
    refine ⟨{ client with username := username }, ⟨?_, ?_⟩, rfl⟩
    · have hlt : self < s.clients.length := by
        rcases List.getElem?_eq_some.mp hc with ⟨h, -⟩
        exact h
      exact List.mem_iff_getElem.mpr ⟨self, by simpa using hlt, by simp⟩
    · simp [ha, hfd]

/-- Witness of C9 as amended: alice (handle 4) registers while bob (handle 5) is active. -/
theorem join_notification_recipients_witness :
    ((([ClientInfo.new 4, ⟨5, "bob".toList, true⟩] : List ClientInfo)[0]?
        = some (ClientInfo.new 4)) ∧
      parse_username "\x7b\"user\":\"alice\"\x7d".toList = some "alice".toList) ∧
    ∃ s1, register_client (fun _ _ => 1) [] 0 "\x7b\"user\":\"alice\"\x7d".toList
        { clients := [ClientInfo.new 4, ⟨5, "bob".toList, true⟩], server_running := true,
          wire := [], closed := [] } = some s1 ∧
      s1.wire = ([] : List (Int × Str)) ++
        ((([ClientInfo.new 4, ⟨5, "bob".toList, true⟩] : List ClientInfo).set 0
            { ClientInfo.new 4 with username := "alice".toList }).filter
          (fun c => c.active && decide (c.socket_fd ≠ -1))).map
            (fun c => (c.socket_fd, create_json_message [] "SERVER".toList
              ("alice".toList ++ " joined the chat".toList) [])) ++
        [((ClientInfo.new 4).socket_fd, user_list_line s1.clients)] ∧
      ((ClientInfo.new 4).active = true ∧ (ClientInfo.new 4).socket_fd ≠ -1 →
        ((ClientInfo.new 4).socket_fd, create_json_message [] "SERVER".toList
          ("alice".toList ++ " joined the chat".toList) []) ∈ s1.wire) :=
  ⟨⟨by decide, by decide⟩,
    join_notification_recipients (fun _ _ => 1) [] 0 "\x7b\"user\":\"alice\"\x7d".toList
      { clients := [ClientInfo.new 4, ⟨5, "bob".toList, true⟩], server_running := true,
        wire := [], closed := [] } (ClientInfo.new 4) "alice".toList
      (by decide) (by decide)⟩

/-- The part of C10 the code keeps: a non-empty line without a newline, sent with its
newline to an active worker of a running server, is read whole and broadcast followed by
one newline with the worker's own handle as the sender; the loop then goes on with the
unread input. -/
theorem message_loop_relay (net : Int → Str → Int) (self fuel : Nat) (line more : Str)
    (s : Server) (client : ClientInfo) (hc : s.clients[self]? = some client)
    (hr : s.server_running = true) (ha : client.active = true) (hne : line ≠ [])
    (hn : '\n' ∉ line) :
    message_loop net self (fuel + 1) (line ++ '\n' :: more) s =
      message_loop net self fuel more
        (broadcast_message net (line ++ "\n".toList) client.socket_fd s) := by
  have he : line.isEmpty = false := by
    cases line with
    | nil => exact absurd rfl hne
    | cons c cs => rfl
  rw [message_loop]
  simp only [hc, hr, ha, and_self, if_true, read_line_line line more hn, he,
    Bool.false_eq_true, if_false]

/-- C10. An empty line is taken for a closed stream: `read_line` returns the same empty
string for the input `\n` as for an ended stream, so when alice (handle 4) sends an empty
line followed by `hello`, her worker marks her inactive, relays nothing, broadcasts the
leave notification to bob (handle 5) and closes handle 4. -/
theorem empty_line_closes_connection :
    read_line "\nhello\n".toList = ([], "hello\n".toList) ∧
    read_line [] = ([], []) ∧
    handle_client (fun _ _ => 1) "T1".toList "T2".toList 0
        "\x7b\"user\":\"alice\"\x7d\n\nhello\n".toList
        { clients := [ClientInfo.new 4, ⟨5, "bob".toList, true⟩], server_running := true,
          wire := [], closed := [] }
      = some
        { clients := [⟨4, "alice".toList, false⟩, ⟨5, "bob".toList, true⟩],
          server_running := true,
          wire := [
            (4, "\x7b\"type\":\"welcome\",\"text\":\"Please send your username\"\x7d\n".toList),
            (4, ("\x7b\"user\":\"SERVER\",\"time\":\"T1\"," ++
                  "\"text\":\"alice joined the chat\"\x7d\n").toList),
            (5, ("\x7b\"user\":\"SERVER\",\"time\":\"T1\"," ++
                  "\"text\":\"alice joined the chat\"\x7d\n").toList),
            (4, "\x7b\"type\":\"userlist\",\"users\":[\"alice\",\"bob\"]\x7d\n".toList),
            (5, ("\x7b\"user\":\"SERVER\",\"time\":\"T2\"," ++
                  "\"text\":\"alice left the chat\"\x7d\n").toList)],
          closed := [4] } := by
  decide

theorem strncpyBytes_length (n : Nat) (src : Str) : (strncpyBytes n src).length = n := by
  induction n generalizing src with
  | zero => simp [strncpyBytes]
  | succ n ih =>
    cases src with
    | nil => simp [strncpyBytes]
    | cons c cs =>
      by_cases hc : c = NUL
      · simp [strncpyBytes, hc]
      · simp [strncpyBytes, hc, ih]

theorem strncpy_strncpy (dest src1 src2 : Str) (n : Nat) :
    strncpy (strncpy dest src1 n) src2 n = strncpy dest src2 n := by
  unfold strncpy
  congr 1
  exact List.drop_left' (strncpyBytes_length n src1)

theorem set_set (m : ChatMessage) (u1 t1 m1 u2 t2 m2 : Str) :
    (m.set u1 t1 m1).set u2 t2 m2 = m.set u2 t2 m2 := by
  simp only [ChatMessage.set, strncpy_strncpy]

/-- C12. No residue on slot reuse: `set` applied twice to a zeroed record gives the same
record, byte for byte, as the second `set` alone on a zeroed record; so when the write
index of a layout points at a slot that holds an earlier record, the slot write returns
and leaves in that slot exactly what the new record would be in a fresh slot, the other
slots being unchanged. -/
theorem no_residue_on_reuse (u1 t1 m1 : Str) (r : Record) (shm : SharedMemoryLayout)
    (i : Nat) (hi : shm.write_index = (i : Int)) (hlt : i < SHARED_MEMORY_CAPACITY)
    (hslot : shm.messages[i]? = some (ChatMessage.new.set u1 t1 m1)) :
    (ChatMessage.new.set u1 t1 m1).set r.username r.timestamp r.message
      = ChatMessage.new.set r.username r.timestamp r.message ∧
    ∃ shm1, write_slot r shm = .ok shm1 ∧
      shm1.messages[i]? = some (ChatMessage.new.set r.username r.timestamp r.message) ∧
      ∀ j, j ≠ i → shm1.messages[j]? = shm.messages[j]? := by
  refine ⟨set_set _ _ _ _ _ _ _, ?_⟩
  have hb : (0 : Int) ≤ (i : Int) ∧ (i : Int) < (SHARED_MEMORY_CAPACITY : Int) := by
    constructor <;> omega
  have hlen : i < shm.messages.length := by
    rcases List.getElem?_eq_some.mp hslot with ⟨h, -⟩
    exact h
  refine ⟨{ shm with
      messages := shm.messages.set i (ChatMessage.new.set r.username r.timestamp r.message),
      write_index := Int.tmod ((i : Int) + 1) (SHARED_MEMORY_CAPACITY : Int) }, ?_, ?_, ?_⟩
  · simp only [write_slot, hi, Int.toNat_ofNat, if_pos hb, hslot, set_set]
  · simp only [List.getElem?_set, if_pos hlen, if_true]
  · intro j hj
    simp only []
    rw [List.getElem?_set_ne (Ne.symm hj)]

/-- Witness of C12: the slot at index 0 held a record with a 40-character username and is
reused for bob. -/
theorem no_residue_on_reuse_witness :
    (used_layout.write_index = ((0 : Nat) : Int) ∧ 0 < SHARED_MEMORY_CAPACITY ∧
      used_layout.messages[0]?
        = some (ChatMessage.new.set long_username [] "a long message".toList)) ∧
    ((ChatMessage.new.set long_username [] "a long message".toList).set
        (Record.mk "bob".toList [] "hi".toList).username
        (Record.mk "bob".toList [] "hi".toList).timestamp
        (Record.mk "bob".toList [] "hi".toList).message
      = ChatMessage.new.set (Record.mk "bob".toList [] "hi".toList).username
          (Record.mk "bob".toList [] "hi".toList).timestamp
          (Record.mk "bob".toList [] "hi".toList).message ∧
    ∃ shm1, write_slot (Record.mk "bob".toList [] "hi".toList) used_layout = .ok shm1 ∧
      shm1.messages[0]? = some (ChatMessage.new.set
        (Record.mk "bob".toList [] "hi".toList).username
        (Record.mk "bob".toList [] "hi".toList).timestamp
        (Record.mk "bob".toList [] "hi".toList).message) ∧
      ∀ j, j ≠ 0 → shm1.messages[j]? = used_layout.messages[j]?) :=
  ⟨⟨by decide, by decide, rfl⟩,
    no_residue_on_reuse long_username [] "a long message".toList
      (Record.mk "bob".toList [] "hi".toList) used_layout
      0 (by decide) (by decide) rfl⟩

theorem read_line_loop_rest_length (acc input : Str) :
    (read_line_loop acc input).2.length ≤ input.length - 1 := by
  induction input generalizing acc with
  | nil => simp [read_line_loop]
  | cons c rest ih =>
    rw [read_line_loop]
    split
    · simp
    · have := ih (acc ++ [c])
      simp only [List.length_cons, Nat.add_sub_cancel]
      omega

theorem broadcast_message_self (net : Int → Str → Int) (message : Str) (sender_fd : Int)
    (s : Server) (self : Nat) (client : ClientInfo) (hc : s.clients[self]? = some client) :
    (broadcast_message net message sender_fd s).server_running = s.server_running ∧
    ∃ c, (broadcast_message net message sender_fd s).clients[self]? = some c := by
  simp only [broadcast_message, broadcast_loop_eq, List.getElem?_map, hc, Option.map_some']
  exact ⟨trivial, _, rfl⟩

/-- The sibling path of C11: the message loop, given more iterations than there are input
bytes, is left either because the server stopped running or with the worker's own entry
marked inactive. -/
theorem message_loop_exit (net : Int → Str → Int) (self fuel : Nat) (input : Str)
    (s : Server) (client : ClientInfo) (hf : input.length < fuel)
    (hc : s.clients[self]? = some client) :
    (message_loop net self fuel input s).server_running = false ∨
    ∃ c, (message_loop net self fuel input s).clients[self]? = some c ∧ c.active = false := by
  induction fuel generalizing input s client with
  | zero => omega
  | succ fuel ih =>
    rw [message_loop]
    simp only [hc]
    by_cases hrun : s.server_running = true ∧ client.active = true
    · rw [if_pos hrun]
      by_cases he : (read_line input).1.isEmpty = true
      · simp only [he, if_true]
        right
        have hlt : self < s.clients.length := by
          rcases List.getElem?_eq_some.mp hc with ⟨h, -⟩
          exact h
        exact ⟨{ client with active := false }, by simp [hlt], rfl⟩
      · simp only [he, Bool.false_eq_true, if_false]
        have hne : input ≠ [] := by
          intro h0
          apply he
          rw [h0]
          rfl
        have hrest : (read_line input).2.length < fuel := by
          have h1 := read_line_loop_rest_length [] input
          have h2 : 0 < input.length := List.length_pos.mpr hne
          unfold read_line
          omega
        obtain ⟨-, c1, hc1⟩ := broadcast_message_self net
          ((read_line input).1 ++ "\n".toList) client.socket_fd s self client hc
        exact ih (read_line input).2 _ c1 hrest hc1
    · rw [if_neg hrun]
      by_cases hr : s.server_running = true
      · right
        refine ⟨client, hc, ?_⟩
        cases ha : client.active
        · rfl
        · exact absurd ⟨hr, ha⟩ hrun
      · left
        simpa using hr

/-- C11. The early return of `handle_client` closes the handle and leaves the entry
active: alice's stream (handle 4) ends before a username line arrives, her entry keeps
`active = true` while handle 4 is closed; a later line from bob (handle 5) is then sent to
the closed handle 4; and once the system hands out 4 again to a new connection, two active
entries share the handle. -/
theorem closed_handle_stays_active :
    handle_client (fun _ _ => 1) "T1".toList "T2".toList 0 []
        { clients := [ClientInfo.new 4, ⟨5, "bob".toList, true⟩], server_running := true,
          wire := [], closed := [] }
      = some
        { clients := [⟨4, [], true⟩, ⟨5, "bob".toList, true⟩], server_running := true,
          wire := [
            (4, "\x7b\"type\":\"welcome\",\"text\":\"Please send your username\"\x7d\n".toList)],
          closed := [4] } ∧
    (broadcast_message (fun _ _ => 1) "hi\n".toList 5
        { clients := [⟨4, [], true⟩, ⟨5, "bob".toList, true⟩], server_running := true,
          wire := [], closed := [4] }).wire = [(4, "hi\n".toList)] ∧
    ¬ ((([⟨4, [], true⟩, ⟨5, "bob".toList, true⟩, ClientInfo.new 4] :
        List ClientInfo).filter (fun c => c.active)).map (fun c => c.socket_fd)).Nodup := by
  decide

end ChatSystem
